import Mathlib

/-!
Verification of the 4GARTHA provenance ledger and its companion proof-kernel.

The development shallowly embeds the Python sources:
  * `memory_system.py`      — proof-kernel (memory DAG, critic, controller)
  * `canon/ids.py`          — canonical JSON bytes for the ledger side
  * `src/ledger/cas.py`     — content-addressed blob store
  * `src/ledger/manifest.py`— immutable node manifests
  * `src/ledger/replay.py`  — derivation replay engine
  * `src/ledger/verify.py`  — node verifier
  * `src/ledger/locks.py`   — ingest session-lock policy
  * `src/ledger/cli.py`     — ingest driver

Bytes are `List Nat`; strings on the Python side are either Lean `String`s
(identifiers, digests) or codepoint lists (`List Nat`) where the byte-level
encoding matters.  SHA-256 is an abstract function parameter `H`: the sources
use `hashlib.sha256` as a black box, and none of the verified properties
depend on the concrete compression function.
-/

/-- Codepoints of a Lean string (Python `str` viewed as a code-point sequence). -/
def codes (s : String) : List Nat := s.data.map Char.toNat

/-- Inverse direction, used when a JSON-decoded string is used as a dict key
on the Python side.  (Partial for invalid codepoints, like Python itself.) -/
def strOfCodes (l : List Nat) : String := String.mk (l.map Char.ofNat)

/-- `small` occurs contiguously inside `big`. -/
def SubSeg (small big : List Nat) : Prop := ∃ p s, big = p ++ small ++ s

/-- Boolean contiguous-sublist test (for concrete counterexamples). -/
def isSubAt : List Nat → List Nat → Bool
  | [], _ => true
  | _ :: _, [] => false
  | a :: xs, b :: ys => (a == b) && isSubAt xs ys

def isSubList (small : List Nat) : List Nat → Bool
  | [] => small.isEmpty
  | b :: ys => isSubAt small (b :: ys) || isSubList small ys

/-- Lexicographic codepoint order on keys: Python `sorted` over `str`. -/
def lexLe : List Nat → List Nat → Bool
  | [], _ => true
  | _ :: _, [] => false
  | a :: xs, b :: ys => a < b || (a == b && lexLe xs ys)

def insertLe {α : Type} (le : α → α → Bool) (x : α) : List α → List α
  | [] => [x]
  | y :: ys => if le x y then x :: y :: ys else y :: insertLe le x ys

/-- Stable insertion sort (models Python's stable `sorted`). -/
def sortLe {α : Type} (le : α → α → Bool) : List α → List α
  | [] => []
  | x :: xs => insertLe le x (sortLe le xs)

/-- Join byte-chunks with a single `,` between items. -/
def joinComma : List (List Nat) → List Nat
  | [] => []
  | [x] => x
  | x :: y :: ys => x ++ 0x2C :: joinComma (y :: ys)

/-- Decimal digits of a Nat (codepoints), fuel-based. -/
def natDigitsAux : Nat → Nat → List Nat
  | 0, _ => []
  | fuel + 1, n => if n < 10 then [0x30 + n] else natDigitsAux fuel (n / 10) ++ [0x30 + n % 10]

def natDecimal (n : Nat) : List Nat := natDigitsAux (n + 1) n

/-- Python `repr` of an int, as codepoints. -/
def intDecimal : Int → List Nat
  | .ofNat n => natDecimal n
  | .negSucc n => 0x2D :: natDecimal (n + 1)

/-- Lowercase hex digit. -/
def hexDigit (n : Nat) : Nat := if n < 10 then 0x30 + n else 0x57 + n

/-- Four lowercase hex digits (`"%04x"`). -/
def hex4 (n : Nat) : List Nat :=
  [hexDigit (n / 0x1000 % 16), hexDigit (n / 0x100 % 16), hexDigit (n / 16 % 16), hexDigit (n % 16)]

/-- UTF-8 encoding of a codepoint. -/
def utf8Bytes (c : Nat) : List Nat :=
  if c < 0x80 then [c]
  else if c < 0x800 then [0xC0 + c / 0x40, 0x80 + c % 0x40]
  else if c < 0x10000 then [0xE0 + c / 0x1000, 0x80 + c / 0x40 % 0x40, 0x80 + c % 0x40]
  else [0xF0 + c / 0x40000, 0x80 + c / 0x1000 % 0x40, 0x80 + c / 0x40 % 0x40, 0x80 + c % 0x40]

/-- CPython `json` string escaping with `ensure_ascii=True`
(`py_encode_basestring_ascii`): escapes `"` and `\`, the named control
characters, other controls and everything above `0x7E` as `\uXXXX`
(surrogate pairs beyond the BMP). -/
def escAscii (c : Nat) : List Nat :=
  if c = 0x22 then [0x5C, 0x22]
  else if c = 0x5C then [0x5C, 0x5C]
  else if c = 0x08 then [0x5C, 0x62]
  else if c = 0x09 then [0x5C, 0x74]
  else if c = 0x0A then [0x5C, 0x6E]
  else if c = 0x0C then [0x5C, 0x66]
  else if c = 0x0D then [0x5C, 0x72]
  else if c < 0x20 then 0x5C :: 0x75 :: hex4 c
  else if c < 0x7F then [c]
  else if c < 0x10000 then 0x5C :: 0x75 :: hex4 c
  else (0x5C :: 0x75 :: hex4 (0xD800 + (c - 0x10000) / 0x400)) ++
       (0x5C :: 0x75 :: hex4 (0xDC00 + (c - 0x10000) % 0x400))

/-- CPython `json` string escaping with `ensure_ascii=False`
(`py_encode_basestring`): escapes only `"`, `\` and controls; everything
else is emitted as its UTF-8 bytes. -/
def escNonAscii (c : Nat) : List Nat :=
  if c = 0x22 then [0x5C, 0x22]
  else if c = 0x5C then [0x5C, 0x5C]
  else if c = 0x08 then [0x5C, 0x62]
  else if c = 0x09 then [0x5C, 0x74]
  else if c = 0x0A then [0x5C, 0x6E]
  else if c = 0x0C then [0x5C, 0x66]
  else if c = 0x0D then [0x5C, 0x72]
  else if c < 0x20 then 0x5C :: 0x75 :: hex4 c
  else utf8Bytes c

def escConcat (ascii : Bool) : List Nat → List Nat
  | [] => []
  | c :: cs => (if ascii then escAscii c else escNonAscii c) ++ escConcat ascii cs

/-- JSON string literal: quote, escaped body, quote. -/
def dumpStr (ascii : Bool) (s : List Nat) : List Nat := 0x22 :: escConcat ascii s ++ [0x22]

/-- JSON values as produced by Python `json.loads` / consumed by `json.dumps`.
Object pairs keep insertion order; the encoders sort when asked to. -/
inductive JVal where
  | jnull : JVal
  | jbool : Bool → JVal
  | jint : Int → JVal
  | jstr : List Nat → JVal
  | jarr : List JVal → JVal
  | jobj : List (List Nat × JVal) → JVal

/- `json.dumps(obj, sort_keys=True, separators=(",", ":"), ensure_ascii=ascii)`
as bytes (after `.encode("utf-8")`). -/
mutual

def dumpVal (ascii : Bool) : JVal → List Nat
  | .jnull => [0x6E, 0x75, 0x6C, 0x6C]
  | .jbool true => [0x74, 0x72, 0x75, 0x65]
  | .jbool false => [0x66, 0x61, 0x6C, 0x73, 0x65]
  | .jint i => intDecimal i
  | .jstr s => dumpStr ascii s
  | .jarr items => 0x5B :: joinComma (dumpList ascii items) ++ [0x5D]
  | .jobj pairs =>
      0x7B :: joinComma ((sortLe (fun a b => lexLe a.1 b.1) (dumpPairs ascii pairs)).map Prod.snd)
        ++ [0x7D]

def dumpList (ascii : Bool) : List JVal → List (List Nat)
  | [] => []
  | v :: vs => dumpVal ascii v :: dumpList ascii vs

def dumpPairs (ascii : Bool) : List (List Nat × JVal) → List (List Nat × List Nat)
  | [] => []
  | (k, v) :: ps => (k, dumpStr ascii k ++ 0x3A :: dumpVal ascii v) :: dumpPairs ascii ps

end

/-- `memory_system.py canonical_json`:
`json.dumps(obj, sort_keys=True, separators=(",", ":")).encode()` —
note `ensure_ascii` is left at its default `True`. -/
def canonical_json (obj : JVal) : List Nat := dumpVal true obj

/-- `canon/ids.py canon_json_bytes`:
`json.dumps(obj, sort_keys=True, separators=(",", ":"), ensure_ascii=False).encode("utf-8")`. -/
def canon_json_bytes (obj : JVal) : List Nat := dumpVal false obj

/- Some string inside the value (a string leaf or an object key) contains
codepoint `c`. -/
mutual

def hasCP (c : Nat) : JVal → Bool
  | .jnull => false
  | .jbool _ => false
  | .jint _ => false
  | .jstr s => decide (c ∈ s)
  | .jarr items => hasCPList c items
  | .jobj pairs => hasCPPairs c pairs

def hasCPList (c : Nat) : List JVal → Bool
  | [] => false
  | v :: vs => hasCP c v || hasCPList c vs

def hasCPPairs (c : Nat) : List (List Nat × JVal) → Bool
  | [] => false
  | (k, v) :: ps => decide (c ∈ k) || hasCP c v || hasCPPairs c ps

end

def spaces (n : Nat) : List Nat := List.replicate n 0x20

def joinSep (sep : List Nat) : List (List Nat) → List Nat
  | [] => []
  | [x] => x
  | x :: y :: ys => x ++ sep ++ joinSep sep (y :: ys)

/- `json.dumps(obj, indent=2, sort_keys=True)` as bytes (`ensure_ascii` left at
its default `True`, key separator `": "`, item separator `","` + newline +
indentation; empty containers inline). -/
mutual

def ppVal (ind : Nat) : JVal → List Nat
  | .jnull => [0x6E, 0x75, 0x6C, 0x6C]
  | .jbool true => [0x74, 0x72, 0x75, 0x65]
  | .jbool false => [0x66, 0x61, 0x6C, 0x73, 0x65]
  | .jint i => intDecimal i
  | .jstr s => dumpStr true s
  | .jarr [] => [0x5B, 0x5D]
  | .jarr (v :: vs) =>
      0x5B :: 0x0A :: joinSep [0x2C, 0x0A] (ppList (ind + 2) (v :: vs))
        ++ 0x0A :: spaces ind ++ [0x5D]
  | .jobj [] => [0x7B, 0x7D]
  | .jobj (p :: ps) =>
      0x7B :: 0x0A ::
        joinSep [0x2C, 0x0A]
          ((sortLe (fun a b => lexLe a.1 b.1) (ppPairs (ind + 2) (p :: ps))).map Prod.snd)
        ++ 0x0A :: spaces ind ++ [0x7D]

def ppList (ind : Nat) : List JVal → List (List Nat)
  | [] => []
  | v :: vs => (spaces ind ++ ppVal ind v) :: ppList ind vs

def ppPairs (ind : Nat) : List (List Nat × JVal) → List (List Nat × List Nat)
  | [] => []
  | (k, v) :: ps =>
      (k, spaces ind ++ dumpStr true k ++ 0x3A :: 0x20 :: ppVal ind v) :: ppPairs ind ps

end

/-- Python `dict.get(key)`: `none` when absent.  Later duplicates win, as with
`json.loads` on duplicate keys. -/
def jget (pairs : List (List Nat × JVal)) (key : String) : Option JVal :=
  match pairs with
  | [] => none
  | (k, v) :: ps => match jget ps key with
    | some r => some r
    | none => if k = codes key then some v else none

/-- Python `dict.get(key, default)`. -/
def jgetD (pairs : List (List Nat × JVal)) (key : String) (dflt : JVal) : JVal :=
  (jget pairs key).getD dflt

/-- Python `repr` of a JSON-decoded value, used in f-string error messages.
Exact for the scalar shapes that reach error messages in the verified
branches; containers are abbreviated (no theorem depends on them). -/
def jrepr : JVal → String
  | .jnull => "None"
  | .jbool true => "True"
  | .jbool false => "False"
  | .jint i => toString i
  | .jstr s => "'" ++ strOfCodes s ++ "'"
  | .jarr _ => "[...]"
  | .jobj _ => "\x7b...\x7d"

/-! ## Proof-kernel (`memory_system.py`) -/

inductive Phase where
  | INGEST | TRAVERSE | ANALYZE | HYPOTHESIZE | DECIDE | ACT
deriving DecidableEq

inductive StepType where
  | PARSE | EXTRACT | INFER | AGGREGATE | ENTITY_BIND | DECIDE | ACT
deriving DecidableEq

def Phase.name : Phase → String
  | .INGEST => "INGEST"
  | .TRAVERSE => "TRAVERSE"
  | .ANALYZE => "ANALYZE"
  | .HYPOTHESIZE => "HYPOTHESIZE"
  | .DECIDE => "DECIDE"
  | .ACT => "ACT"

def StepType.name : StepType → String
  | .PARSE => "PARSE"
  | .EXTRACT => "EXTRACT"
  | .INFER => "INFER"
  | .AGGREGATE => "AGGREGATE"
  | .ENTITY_BIND => "ENTITY_BIND"
  | .DECIDE => "DECIDE"
  | .ACT => "ACT"

def PHASE_ALLOWED : Phase → List StepType
  | .INGEST => [.PARSE]
  | .TRAVERSE => [.EXTRACT]
  | .ANALYZE => [.EXTRACT, .AGGREGATE, .INFER]
  | .HYPOTHESIZE => [.EXTRACT, .AGGREGATE, .INFER]
  | .DECIDE => [.DECIDE]
  | .ACT => [.ACT]

structure MemNode where
  data : List Nat
  parents : List String
deriving DecidableEq

/-- `MemoryStore.store`: an in-memory dict from digest strings to nodes. -/
def KStore : Type := String → Option MemNode

/-- The digest `put` computes:
`sha256(canonical_json({"data_sha256": sha256(data), "parents": list(parents)}))`. -/
def put_key (H : List Nat → String) (data : List Nat) (parents : List String) : String :=
  H (canonical_json (.jobj [(codes "data_sha256", .jstr (codes (H data))),
                            (codes "parents", .jarr (parents.map fun p => .jstr (codes p)))]))

/-- `MemoryStore.put`: insert only if the digest is unseen; return the digest. -/
def MemoryStore.put (H : List Nat → String) (σ : KStore) (data : List Nat)
    (parents : List String) : String × KStore :=
  match σ (put_key H data parents) with
  | some _ => (put_key H data parents, σ)
  | none =>
    (put_key H data parents,
     fun k => if k = put_key H data parents then some ⟨data, parents⟩ else σ k)

structure Step where
  step_type : StepType
  rule_id : String
  inputs : List String
  params : JVal
  output_node : String

structure Proof where
  goal_id : String
  steps : List Step
  receipt_deps : List String

/-- `opcode_eval(step, in_nodes)`. -/
def opcode_eval (H : List Nat → String) (step : Step) (in_nodes : List MemNode) : List Nat :=
  canonical_json (.jobj [
    (codes "op", .jstr (codes step.step_type.name)),
    (codes "rule", .jstr (codes step.rule_id)),
    (codes "params", step.params),
    (codes "inputs_data", .jarr (in_nodes.map fun n => .jstr (codes (H n.data)))),
    (codes "inputs_parents",
      .jarr (in_nodes.map fun n => .jarr (n.parents.map fun p => .jstr (codes p))))])

structure Norms where
  infer_count : Nat
  aggregate_count : Nat
  decision_count : Nat
  goal_id : String

structure ObsEvent where
  phase : Phase
  step_type : StepType
  rule_id : String
  deps_count : Nat
  norms : Norms

def PhaseAllowlistMonitor (e : ObsEvent) : Bool :=
  decide (e.step_type ∈ PHASE_ALLOWED e.phase)

def HiddenPremiseMonitor (e : ObsEvent) : Bool :=
  if e.step_type = .INFER ∨ e.step_type = .DECIDE ∨ e.step_type = .ACT then
    decide (0 < e.deps_count)
  else true

/-- The two runtime black boxes of `memory_system.py`: `hashlib.sha256`
(hex digest) and `json.loads` (with `none` for a raised exception,
including a failed UTF-8 decode). -/
structure Kernel where
  H : List Nat → String
  jloads : List Nat → Option JVal

structure Critic where
  monitors : List (ObsEvent → Bool)
  law_hash : String

/-- `Critic._validate_receipts`.  Python's `r.get("law_hash") != self.law_hash`
holds unless the decoded value is exactly that string, hence the match. -/
def Critic.validate_receipts (K : Kernel) (c : Critic) (σ : KStore) :
    List String → Bool × String
  | [] => (true, "OK")
  | r_h :: rest =>
    match σ r_h with
    | none => (false, "MISSING_RECEIPT_NODE")
    | some node =>
      match K.jloads node.data with
      | none => (false, "BAD_RECEIPT_ENCODING")
      | some (.jobj rp) =>
        match jget rp "law_hash" with
        | some (.jstr s) =>
          if s ≠ codes c.law_hash then (false, "RECEIPT_LAW_MISMATCH")
          else if (jget rp "output_node").isNone ∨ (jget rp "phase").isNone ∨
                  (jget rp "goal_id").isNone then (false, "BAD_RECEIPT_SCHEMA")
          else
            match jget rp "output_node" with
            | some (.jstr t) =>
              if (σ (strOfCodes t)).isSome then Critic.validate_receipts K c σ rest
              else (false, "MISSING_RECEIPT_OUTPUT_NODE")
            | _ => (false, "MISSING_RECEIPT_OUTPUT_NODE")
        | _ => (false, "RECEIPT_LAW_MISMATCH")
      | some _ => (false, "BAD_RECEIPT_ENCODING")

/-- Python treats `bool` as `int` in arithmetic (`x + (a == b)`). -/
def pyBool (p : Prop) [Decidable p] : Nat := if p then 1 else 0

def getInputs (σ : KStore) : List String → Option (List MemNode)
  | [] => some []
  | h :: hs =>
    match σ h with
    | none => none
    | some n => (getInputs σ hs).map (n :: ·)

/-- The per-step body of `replay_and_verify`'s loop; the `Except` error carries
the memory as mutated so far (Python mutates `self.memory` in place). -/
def stepsLoop (K : Kernel) (c : Critic) (phase : Phase) :
    List Step → KStore → Norms → Except (String × KStore) KStore
  | [], σ, _ => .ok σ
  | step :: rest, σ, norms =>
    match getInputs σ step.inputs with
    | none => .error ("MISSING_MEMNODE", σ)
    | some in_nodes =>
      let out_bytes := opcode_eval K.H step in_nodes
      let pr := MemoryStore.put K.H σ out_bytes step.inputs
      if pr.1 ≠ step.output_node then .error ("REPLAY_MISMATCH", pr.2)
      else
        let norms1 : Norms :=
          ⟨norms.infer_count + pyBool (step.step_type = .INFER),
           norms.aggregate_count + pyBool (step.step_type = .AGGREGATE),
           norms.decision_count + pyBool (step.step_type = .DECIDE ∨ step.step_type = .ACT),
           norms.goal_id⟩
        let event : ObsEvent := ⟨phase, step.step_type, step.rule_id, step.inputs.length, norms1⟩
        if c.monitors.all (fun m => m event) then stepsLoop K c phase rest pr.2 norms1
        else .error ("MONITOR_REJECT", pr.2)

def dummyStep : Step := ⟨.PARSE, "", [], .jobj [], ""⟩

/-- `Critic.replay_and_verify(proof, phase)`, with the memory state passed
explicitly. -/
def Critic.replay_and_verify (K : Kernel) (c : Critic) (σ : KStore) (proof : Proof)
    (phase : Phase) : Bool × String × KStore :=
  if proof.steps.isEmpty then (false, "EMPTY_PROOF", σ)
  else
    let v := Critic.validate_receipts K c σ proof.receipt_deps
    if !v.1 then (false, v.2, σ)
    else
      match stepsLoop K c phase proof.steps σ ⟨0, 0, 0, proof.goal_id⟩ with
      | .error e => (false, e.1, e.2)
      | .ok σ1 =>
        if phase = .ACT then
          if proof.steps.length ≠ 1 ∨ (proof.steps.headD dummyStep).step_type ≠ .ACT then
            (false, "BAD_ACT_SHAPE", σ1)
          else (true, "ACCEPT", σ1)
        else (true, "ACCEPT", σ1)

structure ControllerState where
  memory : KStore
  phase : Phase
  law_hash : String
  last_receipt_id : Option String

/-- Canonical bytes of `asdict(Receipt(law_hash, phase, goal_id, output_node))`. -/
def Receipt.bytes (law_hash phase_name goal_id output_node : String) : List Nat :=
  canonical_json (.jobj [(codes "law_hash", .jstr (codes law_hash)),
                         (codes "phase", .jstr (codes phase_name)),
                         (codes "goal_id", .jstr (codes goal_id)),
                         (codes "output_node", .jstr (codes output_node))])

/-- `proof.steps[-1].output_node` (the accepted-proof branch guarantees the
list is non-empty, so the default is unreachable there). -/
def finalOutput (proof : Proof) : String := (proof.steps.getLastD dummyStep).output_node

/-- `Controller.submit(proof)`. -/
def Controller.submit (K : Kernel) (c : Critic) (cs : ControllerState) (proof : Proof) :
    Bool × String × ControllerState :=
  let r := Critic.replay_and_verify K c cs.memory proof cs.phase
  if !r.1 then (false, r.2.1, ⟨r.2.2, cs.phase, cs.law_hash, cs.last_receipt_id⟩)
  else
    let rdata := Receipt.bytes cs.law_hash cs.phase.name proof.goal_id (finalOutput proof)
    let pr := MemoryStore.put K.H r.2.2 rdata [finalOutput proof]
    (true, "COMMITTED", ⟨pr.2, cs.phase, cs.law_hash, some pr.1⟩)

/-! ## Ledger: manifests and CAS (`src/ledger/manifest.py`, `src/ledger/cas.py`) -/

structure Transform where
  name : String
  digest : String
  params : JVal
  runner : Option (List String)
  env_digest : Option String

structure Node where
  id : String
  parents : List String
  transform : Transform
  meta : Option JVal

/-- `Node.to_dict`: required fields first, then the optional replay-contract
fields and `meta`, only when present. -/
def Node.to_dict (n : Node) : JVal :=
  .jobj ([(codes "id", .jstr (codes n.id)),
          (codes "parents", .jarr (n.parents.map fun p => .jstr (codes p))),
          (codes "transform",
            .jobj ([(codes "name", .jstr (codes n.transform.name)),
                    (codes "digest", .jstr (codes n.transform.digest)),
                    (codes "params", n.transform.params)]
              ++ (match n.transform.runner with
                  | some r => [(codes "runner", .jarr (r.map fun x => .jstr (codes x)))]
                  | none => [])
              ++ (match n.transform.env_digest with
                  | some e => [(codes "env_digest", .jstr (codes e))]
                  | none => [])))]
    ++ (match n.meta with | some m => [(codes "meta", m)] | none => []))

/-- A file system fragment: absolute path → file bytes. -/
def FS : Type := String → Option (List Nat)

def node_manifest_path (root node_id : String) : String :=
  root ++ "/ledger/nodes/" ++ node_id ++ ".json"

/-- The bytes `write_node_manifest` writes:
`json.dumps(payload, indent=2, sort_keys=True) + "\n"` (UTF-8). -/
def manifestText (n : Node) : List Nat := ppVal 0 n.to_dict ++ [0x0A]

/-- `write_node_manifest(repo_root, node)`: refuses to overwrite (append-only
invariant), otherwise writes the serialized manifest and returns its path. -/
def write_node_manifest (fs : FS) (root : String) (node : Node) :
    Except String (FS × String) :=
  let p := node_manifest_path root node.id
  match fs p with
  | some _ => .error ("Node manifest already exists: " ++ p)
  | none => .ok (fun q => if q = p then some (manifestText node) else fs q, p)

/-- `CasPaths.object_path`: objects are sharded by the first two hex chars of
the digest (`CasPaths.from_repo_root` fixes `objects_dir = root/ledger/objects`). -/
def object_path (root digest : String) : String :=
  root ++ "/ledger/objects/" ++ digest.take 2 ++ "/" ++ digest

/-- `store_blob(src, cas, digest)`: no-op when the destination exists,
otherwise write `<dst>.tmp` (digests contain no dot, so `with_suffix`
appends) and atomically rename it over `<dst>`. -/
def store_blob (fs : FS) (srcBytes : List Nat) (root digest : String) : FS × String :=
  let dst := object_path root digest
  match fs dst with
  | some _ => (fs, dst)
  | none =>
    let tmp := dst ++ ".tmp"
    let fs1 : FS := fun q => if q = tmp then some srcBytes else fs q
    let fs2 : FS := fun q => if q = dst then fs1 tmp else if q = tmp then none else fs1 q
    (fs2, dst)

/-! ## Ledger: replay engine (`src/ledger/replay.py`) -/

/-- Outcome of `subprocess.run` on the transform command for a node, plus the
contents of `out.bin` afterwards (`none` when the file does not exist).
The command is a pure function of the node's manifest and CAS content, so the
environment's behaviour is abstracted as a function of the node id. -/
structure RunRes where
  exit : Int
  stdout : String
  stderr : String
  outFile : Option (List Nat)

/-- The on-disk world replay and verify read: parsed manifests keyed by node
id (`read_node_manifest`), CAS blobs keyed by full object path, and the
subprocess oracle. -/
structure World where
  manifests : String → Option JVal
  cas : String → Option (List Nat)
  run : String → RunRes

structure ReplayResult where
  ok : Bool
  errors : List String
  output_digest : Option String
  workdir : Option String

def strLower (s : String) : String := String.mk (s.data.map Char.toLower)

/-- Python `s.rstrip("\n")`. -/
def rstripNl (s : String) : String :=
  String.mk ((s.data.reverse.dropWhile (· = '\n')).reverse)

/-- Name of the auto-created scratch directory
(`tempfile.TemporaryDirectory(prefix=f"ledger-replay-{node_id[:8]}-")`,
abstracted to a deterministic name). -/
def tempName (node_id : String) : String := "/tmp/ledger-replay-" ++ node_id.take 8 ++ "-"

/-- All elements are JSON strings (Python `all(isinstance(x, str) for x in ...)`). -/
def asStrList : List JVal → Option (List String)
  | [] => some []
  | .jstr s :: rest => (asStrList rest).map (strOfCodes s :: ·)
  | _ :: _ => none

/-- The parent-materialization loop: errors accumulated across all parents. -/
def parentLoopErrors (w : World) (root : String) : List JVal → List String
  | [] => []
  | p :: rest =>
    (match p with
     | .jstr pc =>
       if pc.length ≠ 64 then ["invalid parent id: " ++ jrepr p]
       else if (w.cas (object_path root (strOfCodes pc))).isNone then
         ["missing parent object: " ++ object_path root (strOfCodes pc)]
       else []
     | _ => ["invalid parent id: " ++ jrepr p]) ++ parentLoopErrors w root rest

/-- The tail of `replay_node` from working-directory setup onwards: parent
materialization, transform invocation, and the output-digest check. -/
def replay_run_phase (H : List Nat → String) (w : World) (root id : String)
    (plist : List JVal) (workdir : Option String) : ReplayResult :=
  let wd := match workdir with | some d => d | none => tempName id
  let errs := parentLoopErrors w root plist
  if !errs.isEmpty then ⟨false, errs, none, some wd⟩
  else
    let rr := w.run id
    if rr.exit ≠ 0 then
      ⟨false,
        ["transform failed (exit=" ++ toString rr.exit ++ ")"]
          ++ (if rr.stdout.trim ≠ "" then ["stdout:\n" ++ rstripNl rr.stdout] else [])
          ++ (if rr.stderr.trim ≠ "" then ["stderr:\n" ++ rstripNl rr.stderr] else []),
        none, some wd⟩
    else
      match rr.outFile with
      | none => ⟨false, ["transform produced no output (missing out.bin)"], none, some wd⟩
      | some ob =>
        let od := H ob
        if od ≠ id then
          ⟨false, ["derivation mismatch: expected " ++ id ++ ", got " ++ od], some od, some wd⟩
        else ⟨true, [], some od, some wd⟩

/-- `env_digest = t.get("env_digest")` validation: absent or JSON `null` give
Python `None`; a present value must be a 64-char string. -/
def parse_env_digest (tp : List (List Nat × JVal)) : Except ReplayResult (Option String) :=
  match (match jget tp "env_digest" with | some .jnull => none | x => x) with
  | none => .ok none
  | some (.jstr ec) =>
    if ec.length ≠ 64 then
      .error ⟨false, ["manifest.transform.env_digest invalid (expected 64-hex)"], none, none⟩
    else .ok (some (strOfCodes ec))
  | some _ =>
    .error ⟨false, ["manifest.transform.env_digest invalid (expected 64-hex)"], none, none⟩

/-- `runner = t.get("runner")` validation: absent/`null` defaults to
`["python3"]`; a non-empty list of strings is taken as is; a single string
with non-blank `strip()` becomes a one-element list; everything else is a
structural error. -/
def parse_runner (tp : List (List Nat × JVal)) : Except ReplayResult (List String) :=
  match (match jget tp "runner" with | some .jnull => none | x => x) with
  | none => .ok ["python3"]
  | some (.jarr rl) =>
    match asStrList rl with
    | some ss =>
      if ss.length ≥ 1 then .ok ss
      else .error ⟨false, ["manifest.transform.runner invalid (expected array[str])"], none, none⟩
    | none =>
      .error ⟨false, ["manifest.transform.runner invalid (expected array[str])"], none, none⟩
  | some (.jstr sc) =>
    if (strOfCodes sc).trim ≠ "" then .ok [(strOfCodes sc).trim]
    else .error ⟨false, ["manifest.transform.runner invalid (expected array[str])"], none, none⟩
  | some _ =>
    .error ⟨false, ["manifest.transform.runner invalid (expected array[str])"], none, none⟩

/-- If `env_digest` is pinned, the environment blob must resolve in the CAS. -/
def env_blob_check (w : World) (root : String) (envd : Option String) :
    Except ReplayResult Unit :=
  match envd with
  | none => .ok ()
  | some e =>
    if (w.cas (object_path root e)).isNone then
      .error ⟨false,
        ["missing environment description in CAS",
         "  expected: " ++ object_path root e,
         "  hint: store your lockfile/Nix flake/container recipe as a CAS blob"],
        none, none⟩
    else .ok ()

/-- `replay_node(repo_root, node_id, workdir, keep)`.  `none` models a raised
exception (missing or non-object manifest file: `read_node_manifest` /
`m.get` raise).  `t.get(...)` yields Python `None` both for an absent key and
an explicit JSON `null`, hence the `jnull` conversions. -/
def replay_node (H : List Nat → String) (w : World) (root id : String)
    (workdir : Option String) (keep : Bool) : Option ReplayResult :=
  match w.manifests id with
  | none => none
  | some (.jobj mp) =>
    match jgetD mp "parents" (.jarr []) with
    | .jarr plist =>
      if plist.isEmpty then some ⟨true, [], some id, workdir⟩
      else
        match jgetD mp "transform" (.jobj []) with
        | .jobj tp =>
          match (match jget tp "digest" with | some .jnull => none | x => x) with
          | some (.jstr dc) =>
            if dc.length ≠ 64 then
              some ⟨false, ["manifest.transform.digest missing/invalid"], none, none⟩
            else
              match parse_env_digest tp with
              | .error r => some r
              | .ok envd =>
                match parse_runner tp with
                | .error r => some r
                | .ok _runner_argv =>
                  match jgetD tp "params" (.jobj []) with
                  | .jobj _params =>
                    let tpath := object_path root (strOfCodes dc)
                    if (w.cas tpath).isNone then
                      some ⟨false,
                        ["missing transform definition in CAS",
                         "  expected: " ++ tpath,
                         "  hint: ingest nodes with --transform-file to store transform bytes"],
                        none, none⟩
                    else
                      match env_blob_check w root envd with
                      | .error r => some r
                      | .ok _ => some (replay_run_phase H w root id plist workdir)
                  | _ => some ⟨false, ["manifest.transform.params not an object"], none, none⟩
          | _ => some ⟨false, ["manifest.transform.digest missing/invalid"], none, none⟩
        | _ => some ⟨false, ["manifest.transform not an object"], none, none⟩
    | _ => some ⟨false, ["manifest.parents not a list"], none, none⟩
  | some _ => none

/-! ## Ledger: verifier (`src/ledger/verify.py`) -/

structure VerifyResult where
  ok : Bool
  errors : List String

/-- The parent-reachability loop of `verify_node` (step 3). -/
def parentManifestErrors (w : World) (root : String) : List JVal → List String
  | [] => []
  | p :: rest =>
    (match p with
     | .jstr pc =>
       if pc.length ≠ 64 then ["invalid parent id: " ++ jrepr p]
       else if (w.manifests (strOfCodes pc)).isNone then
         ["missing parent manifest: " ++ node_manifest_path root (strOfCodes pc)]
       else []
     | _ => ["invalid parent id: " ++ jrepr p]) ++ parentManifestErrors w root rest

/-- Steps 2–3 of `verify_node`: object-hash and parent-reachability errors,
in accumulation order.  `none` when the manifest is absent or not a JSON
object (the caller returns early / `m.get` raises, respectively). -/
def verify_checks (H : List Nat → String) (w : World) (root id : String) :
    Option (List String) :=
  match w.manifests id with
  | some (.jobj mp) =>
    let e1 := match w.cas (object_path root id) with
      | none => ["missing object: " ++ object_path root id]
      | some b =>
        if H b ≠ id then ["object hash mismatch: expected " ++ id ++ ", got " ++ H b] else []
    let pe := match jgetD mp "parents" (.jarr []) with
      | .jarr pl => parentManifestErrors w root pl
      | _ => ["manifest.parents not a list"]
    some (e1 ++ pe)
  | _ => none

/-- `verify_node(repo_root, node_id, replay)`.  `none` models a raised
exception (non-object manifest). -/
def verify_node (H : List Nat → String) (w : World) (root id : String) (replay : Bool) :
    Option VerifyResult :=
  if (w.manifests id).isNone then
    some ⟨false, ["missing manifest: " ++ node_manifest_path root id]⟩
  else
    match verify_checks H w root id with
    | none => none
    | some pre =>
      if replay && pre.isEmpty then
        match replay_node H w root id none false with
        | none => none
        | some rr =>
          let errs := if !rr.ok then pre ++ rr.errors.map (fun e => "replay: " ++ e) else pre
          some ⟨errs.isEmpty, errs⟩
      else some ⟨pre.isEmpty, pre⟩

/-! ## Ledger: session-lock policy and ingest driver
(`src/ledger/locks.py`, `src/ledger/cli.py`) -/

/-- `locks._truthy` (Python `str.strip().lower()` modelled by
`trim`/`strLower`). -/
def truthyStr (v : String) : Bool :=
  ["1", "true", "yes", "y", "on"].contains (strLower v.trim)

/-- `locks._falsey`. -/
def falseyStr (v : String) : Bool :=
  ["0", "false", "no", "n", "off"].contains (strLower v.trim)

/-- `locks.ingest_session_lock_enabled`: ON unless the CLI opt-out flag is
passed or `LEDGER_INGEST_SESSION_LOCK` is set to a recognized falsey value. -/
def ingest_session_lock_enabled (cli_no_session_lock : Bool) (env : Option String) : Bool :=
  if cli_no_session_lock then false
  else
    match env with
    | none => true
    | some v => if truthyStr v then true else if falseyStr v then false else true

/-- `locks.ingest_session_lock_path`. -/
def ingest_session_lock_path (root : String) : String := root ++ "/ledger/.locks/ingest.lock"

/-- Observable actions of one `ledger ingest` invocation, each tagged with
whether the repo-wide ingest session lock is held at that moment. -/
inductive LAct where
  | computeDigest : String → LAct
  | storeBlob : String → LAct
  | writeManifest : String → LAct
  | lockAcquire : LAct
  | lockRelease : LAct
deriving DecidableEq

structure LEv where
  act : LAct
  lockHeld : Bool
deriving DecidableEq

/-- The arguments of `cmd_ingest` that determine its action trace. -/
structure IngestArgs where
  path : String
  transform_file : Option String

/-- Event trace of `cmd_ingest` (cli.py lines 33–78): hash the source, store
the blob, optionally hash and store the transform file, then write the node
manifest.  The body is straight-line code that never touches
`ingest_session_lock`, so `lockHeld` is `false` throughout and no lock
acquire/release event occurs.  (`HF` abstracts `sha256_file`: path ↦ content
digest.) -/
def cmd_ingest_trace (HF : String → String) (a : IngestArgs) : List LEv :=
  let artifact_id := HF a.path
  ⟨.computeDigest a.path, false⟩ :: ⟨.storeBlob artifact_id, false⟩ ::
    (match a.transform_file with
     | some tf => [⟨.computeDigest tf, false⟩, ⟨.storeBlob (HF tf), false⟩]
     | none => []) ++ [⟨.writeManifest artifact_id, false⟩]

/-- cli.py `_do_ingest`: its body is `return artifact_id` with `artifact_id`
unbound in its scope, so any call raises `NameError`; the lock-wrapped ingest
after that `return` is unreachable dead code. -/
def do_ingest_stub : Except String String :=
  .error "NameError: name 'artifact_id' is not defined"

/-! ## Generic lemmas about the byte-level encoders -/

theorem subSeg_self (l : List Nat) : SubSeg l l := ⟨[], [], by simp⟩

theorem subSeg_appendL (a b c : List Nat) (h : SubSeg a b) : SubSeg a (c ++ b) := by
  obtain ⟨p, s, rfl⟩ := h
  exact ⟨c ++ p, s, by simp⟩

theorem subSeg_appendR (a b c : List Nat) (h : SubSeg a b) : SubSeg a (b ++ c) := by
  obtain ⟨p, s, rfl⟩ := h
  exact ⟨p, s ++ c, by simp⟩

theorem subSeg_cons (a b : List Nat) (x : Nat) (h : SubSeg a b) : SubSeg a (x :: b) :=
  subSeg_appendL a b [x] h

theorem subSeg_trans (a b c : List Nat) (h1 : SubSeg a b) (h2 : SubSeg b c) : SubSeg a c := by
  obtain ⟨p1, s1, rfl⟩ := h1
  obtain ⟨p2, s2, rfl⟩ := h2
  exact ⟨p2 ++ p1, s1 ++ s2, by simp⟩

theorem subSeg_mem (a b : List Nat) (x : Nat) (h : SubSeg a b) (hx : x ∈ a) : x ∈ b := by
  obtain ⟨p, s, rfl⟩ := h
  simp [hx]

theorem subSeg_joinComma (xs : List (List Nat)) (x : List Nat) (hx : x ∈ xs) :
    SubSeg x (joinComma xs) := by
  induction xs with
  | nil => cases hx
  | cons y ys ih =>
    cases ys with
    | nil =>
      rw [List.mem_singleton] at hx
      subst hx
      exact subSeg_self x
    | cons z zs =>
      have hj : joinComma (y :: z :: zs) = y ++ 0x2C :: joinComma (z :: zs) := rfl
      rw [hj]
      rcases List.mem_cons.mp hx with h | h
      · subst h
        exact ⟨[], 0x2C :: joinComma (z :: zs), by simp⟩
      · exact subSeg_appendL _ _ y (subSeg_cons _ _ 0x2C (ih h))

theorem mem_joinComma (xs : List (List Nat)) (b : Nat) (hb : b ∈ joinComma xs) :
    b = 0x2C ∨ ∃ x ∈ xs, b ∈ x := by
  induction xs with
  | nil => simp [joinComma] at hb
  | cons y ys ih =>
    cases ys with
    | nil => exact Or.inr ⟨y, by simp, by simpa [joinComma] using hb⟩
    | cons z zs =>
      have hj : joinComma (y :: z :: zs) = y ++ 0x2C :: joinComma (z :: zs) := rfl
      rw [hj] at hb
      rcases List.mem_append.mp hb with h | h
      · exact Or.inr ⟨y, by simp, h⟩
      · rcases List.mem_cons.mp h with h | h
        · exact Or.inl h
        · rcases ih h with h | ⟨x, hx1, hx2⟩
          · exact Or.inl h
          · exact Or.inr ⟨x, List.mem_cons_of_mem _ hx1, hx2⟩

theorem mem_insertLe {α : Type} (le : α → α → Bool) (x y : α) (l : List α) :
    y ∈ insertLe le x l ↔ y = x ∨ y ∈ l := by
  induction l with
  | nil => simp [insertLe]
  | cons z zs ih =>
    by_cases h : le x z = true
    · simp [insertLe, h]
    · rw [show insertLe le x (z :: zs) = z :: insertLe le x zs from by simp [insertLe, h]]
      simp only [List.mem_cons, ih]
      tauto

theorem mem_sortLe {α : Type} (le : α → α → Bool) (y : α) (l : List α) :
    y ∈ sortLe le l ↔ y ∈ l := by
  induction l with
  | nil => simp [sortLe]
  | cons z zs ih => simp [sortLe, mem_insertLe, ih]

theorem hexDigit_lt (n : Nat) (h : n < 16) : hexDigit n < 0x80 := by
  unfold hexDigit
  split <;> omega

theorem mem_hex4 (n b : Nat) (hb : b ∈ hex4 n) : b < 0x80 := by
  simp only [hex4, List.mem_cons, List.mem_singleton, List.not_mem_nil, or_false] at hb
  rcases hb with h | h | h | h <;> subst h <;>
    exact hexDigit_lt _ (Nat.mod_lt _ (by omega))

set_option maxHeartbeats 1000000 in
theorem escAscii_lt (c b : Nat) (hb : b ∈ escAscii c) : b < 0x80 := by
  have hx : ∀ (m x : Nat), x ∈ (0x5C :: 0x75 :: hex4 m) → x < 0x80 := by
    intro m x hxm
    rcases List.mem_cons.mp hxm with h | h
    · omega
    · rcases List.mem_cons.mp h with h | h
      · omega
      · exact mem_hex4 m x h
  rw [escAscii] at hb
  by_cases h1 : c = 0x22
  · rw [if_pos h1] at hb; rcases List.mem_cons.mp hb with h | h
    · omega
    · rw [List.mem_singleton] at h; omega
  rw [if_neg h1] at hb
  by_cases h2 : c = 0x5C
  · rw [if_pos h2] at hb; rcases List.mem_cons.mp hb with h | h
    · omega
    · rw [List.mem_singleton] at h; omega
  rw [if_neg h2] at hb
  by_cases h3 : c = 0x08
  · rw [if_pos h3] at hb; rcases List.mem_cons.mp hb with h | h
    · omega
    · rw [List.mem_singleton] at h; omega
  rw [if_neg h3] at hb
  by_cases h4 : c = 0x09
  · rw [if_pos h4] at hb; rcases List.mem_cons.mp hb with h | h
    · omega
    · rw [List.mem_singleton] at h; omega
  rw [if_neg h4] at hb
  by_cases h5 : c = 0x0A
  · rw [if_pos h5] at hb; rcases List.mem_cons.mp hb with h | h
    · omega
    · rw [List.mem_singleton] at h; omega
  rw [if_neg h5] at hb
  by_cases h6 : c = 0x0C
  · rw [if_pos h6] at hb; rcases List.mem_cons.mp hb with h | h
    · omega
    · rw [List.mem_singleton] at h; omega
  rw [if_neg h6] at hb
  by_cases h7 : c = 0x0D
  · rw [if_pos h7] at hb; rcases List.mem_cons.mp hb with h | h
    · omega
    · rw [List.mem_singleton] at h; omega
  rw [if_neg h7] at hb
  by_cases h8 : c < 0x20
  · rw [if_pos h8] at hb; exact hx _ b hb
  rw [if_neg h8] at hb
  by_cases h9 : c < 0x7F
  · rw [if_pos h9] at hb; rw [List.mem_singleton] at hb; omega
  rw [if_neg h9] at hb
  by_cases h10 : c < 0x10000
  · rw [if_pos h10] at hb; exact hx _ b hb
  rw [if_neg h10] at hb
  rcases List.mem_append.mp hb with h | h
  · exact hx _ b h
  · exact hx _ b h

theorem natDigitsAux_lt (fuel : Nat) : ∀ (n b : Nat), b ∈ natDigitsAux fuel n → b < 0x80 := by
  induction fuel with
  | zero => intro n b hb; simp [natDigitsAux] at hb
  | succ f ih =>
    intro n b hb
    unfold natDigitsAux at hb
    by_cases h : n < 10
    · simp [h] at hb; omega
    · simp only [h, if_false] at hb
      rcases List.mem_append.mp hb with hb | hb
      · exact ih _ b hb
      · have h10 : n % 10 < 10 := Nat.mod_lt _ (by omega)
        simp at hb
        omega

theorem intDecimal_lt (i : Int) (b : Nat) (hb : b ∈ intDecimal i) : b < 0x80 := by
  cases i with
  | ofNat n => exact natDigitsAux_lt _ _ b hb
  | negSucc n =>
    rcases List.mem_cons.mp hb with h | h
    · omega
    · exact natDigitsAux_lt _ _ b h

theorem escConcat_true_lt (s : List Nat) (b : Nat) (hb : b ∈ escConcat true s) : b < 0x80 := by
  induction s with
  | nil => simp [escConcat] at hb
  | cons c cs ih =>
    unfold escConcat at hb
    simp only [if_true, Bool.true_eq] at hb
    rcases List.mem_append.mp hb with h | h
    · exact escAscii_lt c b (by simpa using h)
    · exact ih h

theorem dumpStr_true_lt (s : List Nat) (b : Nat) (hb : b ∈ dumpStr true s) : b < 0x80 := by
  unfold dumpStr at hb
  rcases List.mem_cons.mp hb with h | h
  · omega
  · rcases List.mem_append.mp h with h | h
    · exact escConcat_true_lt s b h
    · simp at h; omega

theorem mem_dumpList_exists (ascii : Bool) (items : List JVal) (x : List Nat)
    (hx : x ∈ dumpList ascii items) : ∃ v1, v1 ∈ items ∧ x = dumpVal ascii v1 := by
  induction items with
  | nil => simp [dumpList] at hx
  | cons v vs ih =>
    rw [show dumpList ascii (v :: vs) = dumpVal ascii v :: dumpList ascii vs from rfl] at hx
    rcases List.mem_cons.mp hx with h | h
    · exact ⟨v, by simp, h⟩
    · obtain ⟨v1, hv1, hx1⟩ := ih h
      exact ⟨v1, List.mem_cons_of_mem _ hv1, hx1⟩

theorem mem_dumpPairs_exists (ascii : Bool) (ps : List (List Nat × JVal))
    (pr : List Nat × List Nat) (hp : pr ∈ dumpPairs ascii ps) :
    ∃ k v1, (k, v1) ∈ ps ∧ pr = (k, dumpStr ascii k ++ 0x3A :: dumpVal ascii v1) := by
  induction ps with
  | nil => simp [dumpPairs] at hp
  | cons p rest ih =>
    obtain ⟨k, v⟩ := p
    rw [show dumpPairs ascii ((k, v) :: rest)
        = (k, dumpStr ascii k ++ 0x3A :: dumpVal ascii v) :: dumpPairs ascii rest from rfl] at hp
    rcases List.mem_cons.mp hp with h | h
    · exact ⟨k, v, by simp, h⟩
    · obtain ⟨k1, v1, hv1, hx1⟩ := ih h
      exact ⟨k1, v1, List.mem_cons_of_mem _ hv1, hx1⟩

mutual

theorem dumpVal_true_lt : ∀ (v : JVal), ∀ b ∈ dumpVal true v, b < 0x80
  | .jnull, b, hb => by
      simp only [dumpVal, List.mem_cons, List.mem_singleton, List.not_mem_nil, or_false] at hb
      omega
  | .jbool true, b, hb => by
      simp only [dumpVal, List.mem_cons, List.mem_singleton, List.not_mem_nil, or_false] at hb
      omega
  | .jbool false, b, hb => by
      simp only [dumpVal, List.mem_cons, List.mem_singleton, List.not_mem_nil, or_false] at hb
      omega
  | .jint i, b, hb => by
      simp only [dumpVal] at hb
      exact intDecimal_lt i b hb
  | .jstr s, b, hb => by
      simp only [dumpVal] at hb
      exact dumpStr_true_lt s b hb
  | .jarr items, b, hb => by
      simp only [dumpVal] at hb
      rcases List.mem_cons.mp hb with h | h
      · omega
      · rcases List.mem_append.mp h with h | h
        · rcases mem_joinComma _ _ h with h | ⟨x, hx, hbx⟩
          · omega
          · exact dumpList_true_lt items x hx b hbx
        · rw [List.mem_singleton] at h; omega
  | .jobj pairs, b, hb => by
      simp only [dumpVal] at hb
      rcases List.mem_cons.mp hb with h | h
      · omega
      · rcases List.mem_append.mp h with h | h
        · rcases mem_joinComma _ _ h with h | ⟨x, hx, hbx⟩
          · omega
          · obtain ⟨pr, hpr, hxe⟩ := List.mem_map.mp hx
            subst hxe
            exact dumpPairs_true_lt pairs pr ((mem_sortLe _ _ _).mp hpr) b hbx
        · rw [List.mem_singleton] at h; omega

theorem dumpList_true_lt : ∀ (items : List JVal), ∀ x ∈ dumpList true items, ∀ b ∈ x, b < 0x80
  | [], x, hx, _, _ => by simp [dumpList] at hx
  | v :: vs, x, hx, b, hb => by
      rw [show dumpList true (v :: vs) = dumpVal true v :: dumpList true vs from rfl] at hx
      rcases List.mem_cons.mp hx with h | h
      · subst h; exact dumpVal_true_lt v b hb
      · exact dumpList_true_lt vs x h b hb

theorem dumpPairs_true_lt :
    ∀ (ps : List (List Nat × JVal)), ∀ pr ∈ dumpPairs true ps, ∀ b ∈ pr.2, b < 0x80
  | [], pr, hp, _, _ => by simp [dumpPairs] at hp
  | (k, v) :: rest, pr, hp, b, hb => by
      rw [show dumpPairs true ((k, v) :: rest)
          = (k, dumpStr true k ++ 0x3A :: dumpVal true v) :: dumpPairs true rest from rfl] at hp
      rcases List.mem_cons.mp hp with h | h
      · subst h
        rcases List.mem_append.mp hb with h2 | h2
        · exact dumpStr_true_lt k b h2
        · rcases List.mem_cons.mp h2 with h3 | h3
          · omega
          · exact dumpVal_true_lt v b h3
      · exact dumpPairs_true_lt rest pr h b hb

end

theorem escNonAscii_high (c : Nat) (hc : 0x80 ≤ c) : escNonAscii c = utf8Bytes c := by
  have h1 : ¬c = 0x22 := by omega
  have h2 : ¬c = 0x5C := by omega
  have h3 : ¬c = 0x08 := by omega
  have h4 : ¬c = 0x09 := by omega
  have h5 : ¬c = 0x0A := by omega
  have h6 : ¬c = 0x0C := by omega
  have h7 : ¬c = 0x0D := by omega
  have h8 : ¬c < 0x20 := by omega
  simp [escNonAscii, h1, h2, h3, h4, h5, h6, h7, h8]

theorem subSeg_escConcat (c : Nat) : ∀ (s : List Nat), c ∈ s →
    SubSeg (escNonAscii c) (escConcat false s)
  | [], h => absurd h (List.not_mem_nil c)
  | x :: xs, h => by
      rw [show escConcat false (x :: xs) = escNonAscii x ++ escConcat false xs from by
        simp [escConcat]]
      rcases List.mem_cons.mp h with h1 | h1
      · subst h1; exact subSeg_appendR _ _ _ (subSeg_self _)
      · exact subSeg_appendL _ _ _ (subSeg_escConcat c xs h1)

theorem subSeg_dumpStr (c : Nat) (s : List Nat) (h : c ∈ s) :
    SubSeg (escNonAscii c) (dumpStr false s) := by
  obtain ⟨p, t, hpt⟩ := subSeg_escConcat c s h
  exact ⟨0x22 :: p, t ++ [0x22], by simp [dumpStr, hpt]⟩

mutual

theorem subSeg_dumpVal (c : Nat) (hc : 0x80 ≤ c) :
    ∀ (v : JVal), hasCP c v = true → SubSeg (utf8Bytes c) (dumpVal false v)
  | .jnull, h => by simp [hasCP] at h
  | .jbool b, h => by simp [hasCP] at h
  | .jint i, h => by simp [hasCP] at h
  | .jstr s, h => by
      have hs : c ∈ s := by simpa [hasCP] using h
      have h1 := subSeg_dumpStr c s hs
      rw [escNonAscii_high c hc] at h1
      simpa [dumpVal] using h1
  | .jarr items, h => by
      have h1 : hasCPList c items = true := by simpa [hasCP] using h
      obtain ⟨x, hx, hsub⟩ := subSeg_dumpList c hc items h1
      obtain ⟨p, t, hpt⟩ := subSeg_trans _ _ _ hsub (subSeg_joinComma _ _ hx)
      exact ⟨0x5B :: p, t ++ [0x5D], by simp [dumpVal, hpt]⟩
  | .jobj pairs, h => by
      have h1 : hasCPPairs c pairs = true := by simpa [hasCP] using h
      obtain ⟨pr, hpr, hsub⟩ := subSeg_dumpPairs c hc pairs h1
      have hm : pr.2 ∈ (sortLe (fun a b => lexLe a.1 b.1) (dumpPairs false pairs)).map Prod.snd :=
        List.mem_map_of_mem _ ((mem_sortLe _ _ _).mpr hpr)
      obtain ⟨p, t, hpt⟩ := subSeg_trans _ _ _ hsub (subSeg_joinComma _ _ hm)
      exact ⟨0x7B :: p, t ++ [0x7D], by simp [dumpVal, hpt]⟩

theorem subSeg_dumpList (c : Nat) (hc : 0x80 ≤ c) :
    ∀ (items : List JVal), hasCPList c items = true →
      ∃ x ∈ dumpList false items, SubSeg (utf8Bytes c) x
  | [], h => by simp [hasCPList] at h
  | v :: vs, h => by
      have h2 : hasCP c v = true ∨ hasCPList c vs = true := by
        simpa [hasCPList, Bool.or_eq_true] using h
      rw [show dumpList false (v :: vs) = dumpVal false v :: dumpList false vs from rfl]
      rcases h2 with h1 | h1
      · exact ⟨dumpVal false v, List.mem_cons_self _ _, subSeg_dumpVal c hc v h1⟩
      · obtain ⟨x, hx, hs⟩ := subSeg_dumpList c hc vs h1
        exact ⟨x, List.mem_cons_of_mem _ hx, hs⟩

theorem subSeg_dumpPairs (c : Nat) (hc : 0x80 ≤ c) :
    ∀ (ps : List (List Nat × JVal)), hasCPPairs c ps = true →
      ∃ pr ∈ dumpPairs false ps, SubSeg (utf8Bytes c) pr.2
  | [], h => by simp [hasCPPairs] at h
  | (k, v) :: rest, h => by
      have h2 : (c ∈ k ∨ hasCP c v = true) ∨ hasCPPairs c rest = true := by
        simpa [hasCPPairs, Bool.or_eq_true, or_assoc] using h
      rw [show dumpPairs false ((k, v) :: rest)
          = (k, dumpStr false k ++ 0x3A :: dumpVal false v) :: dumpPairs false rest from rfl]
      rcases h2 with h1 | h1
      · rcases h1 with h1 | h1
        · have hs := subSeg_dumpStr c k h1
          rw [escNonAscii_high c hc] at hs
          exact ⟨(k, dumpStr false k ++ 0x3A :: dumpVal false v), List.mem_cons_self _ _,
            subSeg_appendR _ _ _ hs⟩
        · exact ⟨(k, dumpStr false k ++ 0x3A :: dumpVal false v), List.mem_cons_self _ _,
            subSeg_appendL _ _ _ (subSeg_cons _ _ 0x3A (subSeg_dumpVal c hc v h1))⟩
      · obtain ⟨pr, hp, hs⟩ := subSeg_dumpPairs c hc rest h1
        exact ⟨pr, List.mem_cons_of_mem _ hp, hs⟩

end

/-! ## Claim theorems -/

/-- C2, counterexample: the value `"é"` (a non-ASCII string) is encoded by the
proof-kernel's `canonical_json` as the escaped ASCII bytes `"é"`; the
UTF-8 bytes of `é` do not occur in the output, so the proof-kernel's canonical
encoder does **not** preserve non-ASCII characters unescaped. -/
theorem canonical_json_escapes_eacute :
    hasCP 0xE9 (JVal.jstr [0xE9]) = true ∧
    0x80 ≤ 0xE9 ∧
    canonical_json (JVal.jstr [0xE9]) = [0x22, 0x5C, 0x75, 0x30, 0x30, 0x65, 0x39, 0x22] ∧
    ¬ SubSeg (utf8Bytes 0xE9) (canonical_json (JVal.jstr [0xE9])) := by
  refine ⟨by decide, by omega, by decide, ?_⟩
  rintro ⟨p, s, hps⟩
  have hmem : (0xC3 : Nat) ∈ canonical_json (JVal.jstr [0xE9]) := by
    rw [hps]
    have h1 : (0xC3 : Nat) ∈ utf8Bytes 0xE9 := by decide
    simp [List.mem_append, h1]
  have hlt := dumpVal_true_lt (JVal.jstr [0xE9]) 0xC3 hmem
  omega

/-- C2, amended: the *ledger's* canonical encoder `canon_json_bytes`
(`ensure_ascii=False`) preserves every non-ASCII character of every string in
the value as its unescaped UTF-8 bytes, while the proof-kernel's own
`canonical_json` (`ensure_ascii` default) escapes all non-ASCII characters —
its output is pure ASCII. -/
theorem canonical_encoding_nonascii (v : JVal) (c : Nat) (hc : 0x80 ≤ c)
    (hv : hasCP c v = true) :
    (∀ b ∈ canonical_json v, b < 0x80) ∧ SubSeg (utf8Bytes c) (canon_json_bytes v) :=
  ⟨fun b hb => dumpVal_true_lt v b hb, subSeg_dumpVal c hc v hv⟩

theorem canonical_encoding_nonascii_witness :
    0x80 ≤ 0xE9 ∧ hasCP 0xE9 (JVal.jstr [0xE9]) = true ∧
    ((∀ b ∈ canonical_json (JVal.jstr [0xE9]), b < 0x80) ∧
      SubSeg (utf8Bytes 0xE9) (canon_json_bytes (JVal.jstr [0xE9]))) :=
  ⟨by omega, by decide,
    canonical_encoding_nonascii (JVal.jstr [0xE9]) 0xE9 (by omega) (by decide)⟩

/-- C4: `write_node_manifest` is not idempotent: a first write for a fresh id
creates the manifest file, and any subsequent write for the same id fails
with the AlreadyExists error while the stored manifest bytes are unchanged. -/
theorem write_node_manifest_append_only (fs : FS) (root : String) (node : Node)
    (h0 : fs (node_manifest_path root node.id) = none) :
    ∃ fs1 : FS,
      write_node_manifest fs root node = .ok (fs1, node_manifest_path root node.id) ∧
      fs1 (node_manifest_path root node.id) = some (manifestText node) ∧
      ∀ node2 : Node, node2.id = node.id →
        write_node_manifest fs1 root node2 =
          .error ("Node manifest already exists: " ++ node_manifest_path root node.id) ∧
        fs1 (node_manifest_path root node.id) = some (manifestText node) := by
  refine ⟨fun q => if q = node_manifest_path root node.id then some (manifestText node) else fs q,
    ?_, by simp, ?_⟩
  · simp only [write_node_manifest, h0]
  · intro node2 h2
    refine ⟨?_, by simp⟩
    simp [write_node_manifest, node_manifest_path, h2]

def wNode : Node := ⟨"n", [], ⟨"t", "d", .jobj [], none, none⟩, none⟩

theorem write_node_manifest_append_only_witness :
    ∃ fs1 : FS,
      write_node_manifest (fun _ => none) "" wNode = .ok (fs1, node_manifest_path "" wNode.id) ∧
      fs1 (node_manifest_path "" wNode.id) = some (manifestText wNode) ∧
      ∀ node2 : Node, node2.id = wNode.id →
        write_node_manifest fs1 "" node2 =
          .error ("Node manifest already exists: " ++ node_manifest_path "" wNode.id) ∧
        fs1 (node_manifest_path "" wNode.id) = some (manifestText wNode) :=
  write_node_manifest_append_only (fun _ => none) "" wNode rfl

/-- C9: `store_blob` writes a fresh blob via temp-file + atomic rename and is
idempotent: when the destination exists the call is a no-op returning the
existing path, and any repeat call leaves both the file system and the bytes
on disk unchanged. -/
theorem store_blob_spec (fs : FS) (src : List Nat) (root digest : String)
    (h0 : fs (object_path root digest) = none) :
    (store_blob fs src root digest).2 = object_path root digest ∧
    (store_blob fs src root digest).1 (object_path root digest) = some src ∧
    (store_blob fs src root digest).1 (object_path root digest ++ ".tmp") = none ∧
    (∀ q, q ≠ object_path root digest → q ≠ object_path root digest ++ ".tmp" →
      (store_blob fs src root digest).1 q = fs q) ∧
    (∀ (fs2 : FS) (src2 : List Nat), (fs2 (object_path root digest)).isSome →
      store_blob fs2 src2 root digest = (fs2, object_path root digest)) := by
  have hne : object_path root digest ++ ".tmp" ≠ object_path root digest := by
    intro h
    have h2 : (object_path root digest).length + ".tmp".length =
        (object_path root digest).length := by
      rw [← String.length_append, h]
    have h3 : ".tmp".length = 4 := rfl
    omega
  refine ⟨?_, ?_, ?_, ?_, ?_⟩
  · simp [store_blob, h0]
  · simp [store_blob, h0]
  · simp [store_blob, h0, hne]
  · intro q hq1 hq2
    simp [store_blob, h0, hq1, hq2]
  · intro fs2 src2 h
    rcases Option.isSome_iff_exists.mp h with ⟨b, hb⟩
    simp [store_blob, hb]

theorem store_blob_spec_witness :
    (store_blob (fun _ => none) [1, 2] "" "ab").2 = object_path "" "ab" ∧
    (store_blob (fun _ => none) [1, 2] "" "ab").1 (object_path "" "ab") = some [1, 2] ∧
    (store_blob (fun _ => none) [1, 2] "" "ab").1 (object_path "" "ab" ++ ".tmp") = none ∧
    (∀ q, q ≠ object_path "" "ab" → q ≠ object_path "" "ab" ++ ".tmp" →
      (store_blob (fun _ => none) [1, 2] "" "ab").1 q = (fun _ => none : FS) q) ∧
    (∀ (fs2 : FS) (src2 : List Nat), (fs2 (object_path "" "ab")).isSome →
      store_blob fs2 src2 "" "ab" = (fs2, object_path "" "ab")) :=
  store_blob_spec (fun _ => none) [1, 2] "" "ab" rfl

/-- C7: a node whose manifest has an empty parents list replays successfully
and immediately, with output digest equal to the node id, for *every* CAS
state (in particular the transform digest need not resolve to a blob) and
with no errors reported. -/
theorem replay_node_admission (H : List Nat → String) (w : World) (root id : String)
    (workdir : Option String) (keep : Bool) (mp : List (List Nat × JVal))
    (hm : w.manifests id = some (.jobj mp))
    (hp : jgetD mp "parents" (.jarr []) = .jarr []) :
    replay_node H w root id workdir keep = some ⟨true, [], some id, workdir⟩ := by
  simp [replay_node, hm, hp]

def w7 : World :=
  ⟨fun i => if i = "n" then some (.jobj [(codes "parents", .jarr [])]) else none,
   fun _ => none, fun _ => ⟨1, "", "", none⟩⟩

theorem replay_node_admission_witness :
    replay_node (fun _ => "") w7 "" "n" none false = some ⟨true, [], some "n", none⟩ :=
  replay_node_admission (fun _ => "") w7 "" "n" none false _ rfl rfl

/-- C1 (code bug): in the default configuration the session lock is enabled,
yet `cmd_ingest`'s action trace contains a manifest write performed with the
lock not held, and no lock acquisition at all — the digest/store/manifest
window is not covered by the ingest session lock (the lock-wrapped
`_do_ingest` is unreachable dead code). -/
theorem cmd_ingest_writes_manifest_without_lock :
    ingest_session_lock_enabled false none = true ∧
    (∀ e ∈ cmd_ingest_trace (fun _ => "d0") ⟨"artifact.bin", none⟩,
      e.act ≠ LAct.lockAcquire ∧ e.lockHeld = false) ∧
    LEv.mk (LAct.writeManifest "d0") false ∈
      cmd_ingest_trace (fun _ => "d0") ⟨"artifact.bin", none⟩ := by
  refine ⟨rfl, by decide, by decide⟩

/-- C10: when the critic rejects a proof, `Controller.submit` returns the
failure code and leaves both the phase and `last_receipt_id` exactly as they
were before the call. -/
theorem submit_reject_frame (K : Kernel) (c : Critic) (cs : ControllerState) (proof : Proof)
    (code : String) (σ1 : KStore)
    (h : Critic.replay_and_verify K c cs.memory proof cs.phase = (false, code, σ1)) :
    Controller.submit K c cs proof =
      (false, code, ⟨σ1, cs.phase, cs.law_hash, cs.last_receipt_id⟩) := by
  simp [Controller.submit, h]

def K0 : Kernel := ⟨fun _ => "", fun _ => none⟩

def c0 : Critic := ⟨[], ""⟩

def cs0 : ControllerState := ⟨fun _ => none, .INGEST, "", none⟩

theorem submit_reject_frame_witness :
    Controller.submit K0 c0 cs0 ⟨"g", [], []⟩ =
      (false, "EMPTY_PROOF", ⟨cs0.memory, Phase.INGEST, "", none⟩) :=
  submit_reject_frame K0 c0 cs0 ⟨"g", [], []⟩ "EMPTY_PROOF" cs0.memory rfl

/-- C3: for a node with non-empty parents whose replay reaches the
output-hash check (manifest structurally valid, transform and env blobs
present, parents materialized, transform exited 0 and produced `out.bin`),
`replay_node` succeeds iff the SHA-256 of the output file equals the node id,
and on inequality fails with exactly
`"derivation mismatch: expected <node id>, got <output digest>"`. -/
theorem replay_node_mismatch (H : List Nat → String) (w : World) (root id : String)
    (workdir : Option String) (keep : Bool)
    (mp tp : List (List Nat × JVal)) (plist : List JVal) (dc : List Nat)
    (params : List (List Nat × JVal)) (envd : Option String) (rargv : List String)
    (ob : List Nat)
    (hm : w.manifests id = some (.jobj mp))
    (hp : jgetD mp "parents" (.jarr []) = .jarr plist)
    (hpne : plist ≠ [])
    (ht : jgetD mp "transform" (.jobj []) = .jobj tp)
    (hd : jget tp "digest" = some (.jstr dc))
    (hdl : dc.length = 64)
    (henv : parse_env_digest tp = .ok envd)
    (hrun : parse_runner tp = .ok rargv)
    (hparams : jgetD tp "params" (.jobj []) = .jobj params)
    (hcas : (w.cas (object_path root (strOfCodes dc))).isSome)
    (henvblob : env_blob_check w root envd = .ok ())
    (hperr : parentLoopErrors w root plist = [])
    (hexit : (w.run id).exit = 0)
    (hout : (w.run id).outFile = some ob) :
    replay_node H w root id workdir keep =
      (if H ob = id then
        some ⟨true, [], some (H ob), some (workdir.getD (tempName id))⟩
      else
        some ⟨false, ["derivation mismatch: expected " ++ id ++ ", got " ++ H ob],
              some (H ob), some (workdir.getD (tempName id))⟩) := by
  have hpe : plist.isEmpty = false := by
    cases plist with
    | nil => cases hpne rfl
    | cons a l => rfl
  obtain ⟨tb, htb⟩ := Option.isSome_iff_exists.mp hcas
  by_cases hid : H ob = id
  · simp [replay_node, hm, hp, hpe, ht, hd, hdl, henv, hrun, hparams, htb, henvblob,
      replay_run_phase, hperr, hexit, hout, hid, Option.getD]
    cases workdir <;> rfl
  · simp [replay_node, hm, hp, hpe, ht, hd, hdl, henv, hrun, hparams, htb, henvblob,
      replay_run_phase, hperr, hexit, hout, hid, Option.getD]
    cases workdir <;> rfl

def d64 : List Nat := List.replicate 64 0x61

def p64 : List Nat := List.replicate 64 0x62

def w3 : World :=
  ⟨fun i => if i = "n" then
      some (.jobj [(codes "parents", .jarr [.jstr p64]),
                   (codes "transform", .jobj [(codes "digest", .jstr d64)])])
    else none,
   fun p => if p = object_path "" (strOfCodes d64) then some []
     else if p = object_path "" (strOfCodes p64) then some [] else none,
   fun _ => ⟨0, "", "", some [7]⟩⟩

def H3 : List Nat → String := fun b => if b = [7] then "n" else "x"

theorem replay_node_mismatch_witness :
    replay_node H3 w3 "" "n" none false =
      some ⟨true, [], some (H3 [7]), some (tempName "n")⟩ :=
  replay_node_mismatch H3 w3 "" "n" none false _ _ _ _ _ none ["python3"] [7]
    rfl rfl (by simp) rfl rfl (by simp [d64]) rfl rfl rfl rfl rfl rfl rfl rfl

def H8 : List Nat → String := fun _ => "n"

def w8 : World :=
  ⟨fun i => if i = "n" then some (.jobj [(codes "parents", .jint 0)]) else none,
   fun p => if p = object_path "" "n" then some [] else none,
   fun _ => ⟨0, "", "", none⟩⟩

/-- C8, counterexample: `verify_node` called with the replay flag set does
*not* always invoke the replay engine and append its errors: on a node whose
preliminary checks already produced an error, the replay engine (which fails
on this node) is skipped, and no "replay: "-prefixed error appears in the
returned error list. -/
theorem verify_node_skips_replay_counterexample :
    verify_node H8 w8 "" "n" true = some ⟨false, ["manifest.parents not a list"]⟩ ∧
    replay_node H8 w8 "" "n" none false =
      some ⟨false, ["manifest.parents not a list"], none, none⟩ ∧
    ¬ ("replay: " ++ "manifest.parents not a list") ∈ ["manifest.parents not a list"] :=
  ⟨rfl, rfl, by decide⟩

theorem verify_checks_manifest (H : List Nat → String) (w : World) (root id : String)
    (l : List String) (hc : verify_checks H w root id = some l) :
    (w.manifests id).isNone = false := by
  unfold verify_checks at hc
  cases hmv : w.manifests id with
  | none => rw [hmv] at hc; simp at hc
  | some v => simp [hmv]

/-- C8, amended: with the replay flag set, `verify_node` invokes the replay
engine only when the preliminary checks (manifest presence, object hash,
parent reachability) produced no errors; in that case each replay error is
appended prefixed with `"replay: "`.  When preliminary errors exist they are
returned unchanged and replay is skipped.  In every returned result, `ok` is
true exactly when the error list is empty. -/
theorem verify_node_replay_spec (H : List Nat → String) (w : World) (root id : String) :
    (∀ r, verify_node H w root id true = some r → (r.ok = true ↔ r.errors = [])) ∧
    (verify_checks H w root id = some [] →
      ∀ rr, replay_node H w root id none false = some rr →
        verify_node H w root id true =
          some ⟨(if rr.ok then ([] : List String)
                 else rr.errors.map (fun e => "replay: " ++ e)).isEmpty,
                if rr.ok then [] else rr.errors.map (fun e => "replay: " ++ e)⟩) ∧
    (∀ es, verify_checks H w root id = some es → es ≠ [] →
      verify_node H w root id true = some ⟨false, es⟩) := by
  refine ⟨?_, ?_, ?_⟩
  · intro r hr
    unfold verify_node at hr
    by_cases hm : (w.manifests id).isNone
    · rw [if_pos hm] at hr
      simp only [Option.some.injEq] at hr
      subst hr
      simp
    · rw [if_neg hm] at hr
      cases hc : verify_checks H w root id with
      | none => rw [hc] at hr; cases hr
      | some pre =>
        rw [hc] at hr
        by_cases hpre : pre.isEmpty
        · simp only [hpre, Bool.and_true, true_and, if_pos] at hr
          cases hrr : replay_node H w root id none false with
          | none => rw [hrr] at hr; cases hr
          | some rr =>
            rw [hrr] at hr
            simp only [Option.some.injEq] at hr
            subst hr
            simp [List.isEmpty_iff]
        · have hpe2 : pre.isEmpty = false := by
            cases h2 : pre.isEmpty
            · rfl
            · exact absurd h2 hpre
          have hpne : pre ≠ [] := by
            intro h
            subst h
            simp at hpe2
          simp only [hpe2, Bool.and_false, Bool.false_eq_true, if_false] at hr
          simp only [Option.some.injEq] at hr
          subst hr
          simp [hpne]
  · intro hc rr hrr
    have hm := verify_checks_manifest H w root id [] hc
    cases hok : rr.ok <;>
      simp [verify_node, hm, hc, hrr, hok]
  · intro es hc hne
    have hm := verify_checks_manifest H w root id es hc
    have hee : es.isEmpty = false := by
      cases es with
      | nil => cases hne rfl
      | cons a l => rfl
    simp [verify_node, hm, hc, hee, List.isEmpty_iff, hne]

def w8b : World :=
  ⟨fun i => if i = "n" then some (.jobj [(codes "parents", .jarr [.jstr p64])])
    else if i = strOfCodes p64 then some (.jobj []) else none,
   fun p => if p = object_path "" "n" then some [] else none,
   fun _ => ⟨0, "", "", none⟩⟩

theorem verify_node_replay_spec_witness :
    verify_node H8 w8b "" "n" true =
      some ⟨false, ["replay: manifest.transform.digest missing/invalid"]⟩ :=
  (verify_node_replay_spec H8 w8b "" "n").2.1 rfl
    ⟨false, ["manifest.transform.digest missing/invalid"], none, none⟩ rfl

/-! ## Store-extension lemmas for the proof-kernel -/

/-- `τ` extends `σ`: every stored node is preserved (puts never overwrite). -/
def StoreLE (σ τ : KStore) : Prop := ∀ h n, σ h = some n → τ h = some n

theorem storeLE_refl (σ : KStore) : StoreLE σ σ := fun _ _ h => h

theorem storeLE_trans {σ τ ρ : KStore} (h1 : StoreLE σ τ) (h2 : StoreLE τ ρ) : StoreLE σ ρ :=
  fun k n h => h2 k n (h1 k n h)

theorem put_fst (H : List Nat → String) (σ : KStore) (data : List Nat) (parents : List String) :
    (MemoryStore.put H σ data parents).1 = put_key H data parents := by
  unfold MemoryStore.put
  cases hσ : σ (put_key H data parents) <;> rfl

theorem put_le (H : List Nat → String) (σ : KStore) (data : List Nat) (parents : List String) :
    StoreLE σ (MemoryStore.put H σ data parents).2 := by
  intro k n h
  unfold MemoryStore.put
  cases hσ : σ (put_key H data parents) with
  | some m => simpa using h
  | none =>
    dsimp only []
    by_cases hk : k = put_key H data parents
    · subst hk; rw [hσ] at h; cases h
    · simp [hk, h]

theorem put_mem (H : List Nat → String) (σ : KStore) (data : List Nat) (parents : List String) :
    ((MemoryStore.put H σ data parents).2 (MemoryStore.put H σ data parents).1).isSome := by
  unfold MemoryStore.put
  cases hσ : σ (put_key H data parents) with
  | some m => simp [hσ]
  | none => simp

theorem put_of_mem (H : List Nat → String) (σ : KStore) (data : List Nat) (parents : List String)
    (h : (σ (put_key H data parents)).isSome) :
    MemoryStore.put H σ data parents = (put_key H data parents, σ) := by
  unfold MemoryStore.put
  obtain ⟨m, hm⟩ := Option.isSome_iff_exists.mp h
  simp [hm]

theorem getInputs_mono (σ τ : KStore) (hle : StoreLE σ τ) :
    ∀ (l : List String) (ns : List MemNode), getInputs σ l = some ns → getInputs τ l = some ns := by
  intro l
  induction l with
  | nil => intro ns h; simpa [getInputs] using h
  | cons x xs ih =>
    intro ns h
    unfold getInputs at h ⊢
    cases hσ : σ x with
    | none => rw [hσ] at h; cases h
    | some n =>
      rw [hσ] at h
      rw [hle x n hσ]
      dsimp only [] at h ⊢
      cases hg : getInputs σ xs with
      | none => rw [hg] at h; cases h
      | some ms =>
        rw [hg] at h
        rw [ih ms hg]
        simpa using h

theorem validate_receipts_mono (K : Kernel) (c : Critic) (σ τ : KStore) (hle : StoreLE σ τ) :
    ∀ (deps : List String) (s : String),
      Critic.validate_receipts K c σ deps = (true, s) →
      Critic.validate_receipts K c τ deps = (true, s) := by
  intro deps
  induction deps with
  | nil => intro s h; simpa [Critic.validate_receipts] using h
  | cons r rest ih =>
    intro s h
    unfold Critic.validate_receipts at h ⊢
    cases hσ : σ r with
    | none => rw [hσ] at h; simp at h
    | some node =>
      rw [hσ] at h
      rw [hle r node hσ]
      try dsimp only [] at h ⊢
      cases hj : K.jloads node.data with
      | none => rw [hj] at h; simp at h
      | some rv =>
        rw [hj] at h
        try dsimp only []
        cases rv with
        | jnull => simp at h
        | jbool b => simp at h
        | jint i => simp at h
        | jstr l => simp at h
        | jarr l => simp at h
        | jobj rp =>
          try dsimp only [] at h ⊢
          cases hlaw : jget rp "law_hash" with
          | none => rw [hlaw] at h; simp at h
          | some lv =>
            rw [hlaw] at h
            try dsimp only []
            cases lv with
            | jnull => simp at h
            | jbool b => simp at h
            | jint i => simp at h
            | jarr l => simp at h
            | jobj l => simp at h
            | jstr lstr =>
              try dsimp only [] at h ⊢
              by_cases hls : lstr ≠ codes c.law_hash
              · rw [if_pos hls] at h; simp at h
              · rw [if_neg hls] at h ⊢
                by_cases hschema : (jget rp "output_node").isNone = true ∨
                    (jget rp "phase").isNone = true ∨ (jget rp "goal_id").isNone = true
                · rw [if_pos hschema] at h; simp at h
                · rw [if_neg hschema] at h ⊢
                  cases hon : jget rp "output_node" with
                  | none => rw [hon] at h; simp at h
                  | some ov =>
                    rw [hon] at h
                    try dsimp only []
                    cases ov with
                    | jnull => simp at h
                    | jbool b => simp at h
                    | jint i => simp at h
                    | jarr l => simp at h
                    | jobj l => simp at h
                    | jstr t =>
                      try dsimp only [] at h ⊢
                      by_cases hmem : (σ (strOfCodes t)).isSome
                      · rw [if_pos hmem] at h
                        obtain ⟨m, hm⟩ := Option.isSome_iff_exists.mp hmem
                        have hτ : (τ (strOfCodes t)).isSome = true := by
                          rw [hle (strOfCodes t) m hm]; rfl
                        rw [if_pos hτ]
                        exact ih s h
                      · rw [if_neg hmem] at h; simp at h

theorem stepsLoop_le (K : Kernel) (c : Critic) (phase : Phase) :
    ∀ (steps : List Step) (σ : KStore) (norms : Norms) (σf : KStore),
      stepsLoop K c phase steps σ norms = .ok σf → StoreLE σ σf := by
  intro steps
  induction steps with
  | nil =>
    intro σ norms σf h
    unfold stepsLoop at h
    have h2 : σ = σf := by simpa using h
    subst h2
    exact storeLE_refl σ
  | cons step rest ih =>
    intro σ norms σf h
    unfold stepsLoop at h
    cases hg : getInputs σ step.inputs with
    | none => rw [hg] at h; simp at h
    | some ns =>
      rw [hg] at h
      dsimp only [] at h
      split at h
      · simp at h
      · split at h
        · exact storeLE_trans (put_le K.H σ (opcode_eval K.H step ns) step.inputs) (ih _ _ _ h)
        · simp at h

theorem stepsLoop_idem (K : Kernel) (c : Critic) (phase : Phase) :
    ∀ (steps : List Step) (σ : KStore) (norms : Norms) (σf : KStore),
      stepsLoop K c phase steps σ norms = .ok σf →
      stepsLoop K c phase steps σf norms = .ok σf := by
  intro steps
  induction steps with
  | nil =>
    intro σ norms σf h
    unfold stepsLoop
    rfl
  | cons step rest ih =>
    intro σ norms σf h
    unfold stepsLoop at h ⊢
    cases hg : getInputs σ step.inputs with
    | none => rw [hg] at h; simp at h
    | some ns =>
      rw [hg] at h
      dsimp only [] at h
      split at h
      case isTrue hout => simp at h
      case isFalse hout =>
        split at h
        case isFalse hmon => simp at h
        case isTrue hmon =>
          have hle1 : StoreLE σ (MemoryStore.put K.H σ (opcode_eval K.H step ns) step.inputs).2 :=
            put_le K.H σ (opcode_eval K.H step ns) step.inputs
          have hlef : StoreLE (MemoryStore.put K.H σ (opcode_eval K.H step ns) step.inputs).2 σf :=
            stepsLoop_le K c phase rest _ _ _ h
          have hle : StoreLE σ σf := storeLE_trans hle1 hlef
          have hkey : put_key K.H (opcode_eval K.H step ns) step.inputs = step.output_node := by
            have := put_fst K.H σ (opcode_eval K.H step ns) step.inputs
            rw [← this]
            by_contra hcon
            exact hout hcon
          have hmem0 := put_mem K.H σ (opcode_eval K.H step ns) step.inputs
          rw [put_fst] at hmem0
          obtain ⟨m, hm⟩ := Option.isSome_iff_exists.mp hmem0
          have hmemf : (σf (put_key K.H (opcode_eval K.H step ns) step.inputs)).isSome = true := by
            rw [hlef _ _ hm]; rfl
          rw [getInputs_mono σ σf hle _ _ hg]
          dsimp only []
          rw [put_of_mem K.H σf (opcode_eval K.H step ns) step.inputs hmemf]
          rw [if_neg (by simp [hkey])]
          rw [if_pos hmon]
          exact ih _ _ _ h

/-- C5: verification by the critic is idempotent.  If `replay_and_verify`
accepts a proof for a phase, mutating the memory store to `σ1`, then
re-invoking it with the same proof and phase on `σ1` accepts again (and
leaves the memory at `σ1`). -/
theorem replay_and_verify_idempotent (K : Kernel) (c : Critic) (σ σ1 : KStore)
    (proof : Proof) (phase : Phase)
    (h : Critic.replay_and_verify K c σ proof phase = (true, "ACCEPT", σ1)) :
    Critic.replay_and_verify K c σ1 proof phase = (true, "ACCEPT", σ1) := by
  unfold Critic.replay_and_verify at h ⊢
  by_cases hemp : proof.steps.isEmpty = true
  · rw [if_pos hemp] at h; simp at h
  · rw [if_neg hemp] at h ⊢
    dsimp only [] at h ⊢
    split at h
    next hcond => simp at h
    next hcond =>
      have hv1 : (Critic.validate_receipts K c σ proof.receipt_deps).1 = true := by
        revert hcond
        cases (Critic.validate_receipts K c σ proof.receipt_deps).1 <;> simp
      have hvfull : Critic.validate_receipts K c σ proof.receipt_deps =
          (true, (Critic.validate_receipts K c σ proof.receipt_deps).2) := by
        rw [← hv1]
      cases hs : stepsLoop K c phase proof.steps σ ⟨0, 0, 0, proof.goal_id⟩ with
      | error e =>
        rw [hs] at h
        dsimp only [] at h
        simp at h
      | ok σf =>
        rw [hs] at h
        dsimp only [] at h
        by_cases hph : phase = Phase.ACT
        · rw [if_pos hph] at h
          by_cases hshape : proof.steps.length ≠ 1 ∨
              (proof.steps.headD dummyStep).step_type ≠ StepType.ACT
          · rw [if_pos hshape] at h; simp at h
          · rw [if_neg hshape] at h
            have hσ : σf = σ1 := by simpa using h
            subst hσ
            have hle : StoreLE σ σf := stepsLoop_le K c phase _ _ _ _ hs
            have hval2 : Critic.validate_receipts K c σf proof.receipt_deps =
                (true, (Critic.validate_receipts K c σ proof.receipt_deps).2) :=
              validate_receipts_mono K c σ σf hle _ _ hvfull
            rw [hval2]
            rw [if_neg (by simp)]
            rw [stepsLoop_idem K c phase _ _ _ _ hs]
            dsimp only []
            rw [if_pos hph]
            rw [if_neg hshape]
        · rw [if_neg hph] at h
          have hσ : σf = σ1 := by simpa using h
          subst hσ
          have hle : StoreLE σ σf := stepsLoop_le K c phase _ _ _ _ hs
          have hval2 : Critic.validate_receipts K c σf proof.receipt_deps =
              (true, (Critic.validate_receipts K c σ proof.receipt_deps).2) :=
            validate_receipts_mono K c σ σf hle _ _ hvfull
          rw [hval2]
          rw [if_neg (by simp)]
          rw [stepsLoop_idem K c phase _ _ _ _ hs]
          dsimp only []
          rw [if_neg hph]

def Kw : Kernel := ⟨fun _ => "k", fun _ => none⟩

def cw : Critic := ⟨[PhaseAllowlistMonitor, HiddenPremiseMonitor], "LH"⟩

def proofw : Proof := ⟨"g", [⟨.EXTRACT, "r", [], .jobj [], "k"⟩], []⟩

theorem replay_and_verify_idempotent_witness :
    Critic.replay_and_verify Kw cw
        ((Critic.replay_and_verify Kw cw (fun _ => none) proofw Phase.TRAVERSE).2.2)
        proofw Phase.TRAVERSE =
      (true, "ACCEPT",
        (Critic.replay_and_verify Kw cw (fun _ => none) proofw Phase.TRAVERSE).2.2) :=
  replay_and_verify_idempotent Kw cw (fun _ => none) _ proofw Phase.TRAVERSE rfl

/-- C6: for a critic-accepted proof, `Controller.submit` mints a receipt with
the pinned law hash, the current phase name, the proof's goal id and the last
step's declared output node; stores its canonical JSON in memory as a MemNode
whose parents are exactly that output node; records the digest as
`last_receipt_id`; and returns `(true, "COMMITTED")` leaving phase and law
hash unchanged.  (`hfresh` rules out the receipt digest colliding with an
existing memory key, in which case `put` would keep the old entry.) -/
theorem submit_commit (K : Kernel) (c : Critic) (cs : ControllerState) (proof : Proof)
    (σ1 : KStore)
    (h : Critic.replay_and_verify K c cs.memory proof cs.phase = (true, "ACCEPT", σ1))
    (hfresh : σ1 (put_key K.H
        (Receipt.bytes cs.law_hash cs.phase.name proof.goal_id (finalOutput proof))
        [finalOutput proof]) = none) :
    (Controller.submit K c cs proof).1 = true ∧
    (Controller.submit K c cs proof).2.1 = "COMMITTED" ∧
    (Controller.submit K c cs proof).2.2.phase = cs.phase ∧
    (Controller.submit K c cs proof).2.2.law_hash = cs.law_hash ∧
    (Controller.submit K c cs proof).2.2.last_receipt_id =
      some (put_key K.H
        (Receipt.bytes cs.law_hash cs.phase.name proof.goal_id (finalOutput proof))
        [finalOutput proof]) ∧
    (Controller.submit K c cs proof).2.2.memory
        (put_key K.H
          (Receipt.bytes cs.law_hash cs.phase.name proof.goal_id (finalOutput proof))
          [finalOutput proof]) =
      some ⟨Receipt.bytes cs.law_hash cs.phase.name proof.goal_id (finalOutput proof),
            [finalOutput proof]⟩ := by
  refine ⟨?_, ?_, ?_, ?_, ?_, ?_⟩ <;>
    simp [Controller.submit, h, MemoryStore.put, hfresh]

def Hw6 : List Nat → String := fun b => toString b.length

def K6 : Kernel := ⟨Hw6, fun _ => none⟩

def stepOut6 : String := put_key Hw6 (opcode_eval Hw6 ⟨.EXTRACT, "r", [], .jobj [], ""⟩ []) []

def proof6 : Proof := ⟨"g", [⟨.EXTRACT, "r", [], .jobj [], stepOut6⟩], []⟩

def cs6 : ControllerState := ⟨fun _ => none, .TRAVERSE, "LH", none⟩

theorem submit_commit_witness :
    (Controller.submit K6 cw cs6 proof6).1 = true ∧
    (Controller.submit K6 cw cs6 proof6).2.1 = "COMMITTED" ∧
    (Controller.submit K6 cw cs6 proof6).2.2.phase = cs6.phase ∧
    (Controller.submit K6 cw cs6 proof6).2.2.law_hash = cs6.law_hash ∧
    (Controller.submit K6 cw cs6 proof6).2.2.last_receipt_id =
      some (put_key K6.H
        (Receipt.bytes cs6.law_hash cs6.phase.name proof6.goal_id (finalOutput proof6))
        [finalOutput proof6]) ∧
    (Controller.submit K6 cw cs6 proof6).2.2.memory
        (put_key K6.H
          (Receipt.bytes cs6.law_hash cs6.phase.name proof6.goal_id (finalOutput proof6))
          [finalOutput proof6]) =
      some ⟨Receipt.bytes cs6.law_hash cs6.phase.name proof6.goal_id (finalOutput proof6),
            [finalOutput proof6]⟩ :=
  submit_commit K6 cw cs6 proof6 _ rfl rfl
